import Mathlib

/-!
Verification of the core behavioural claims of the crypto-trading-bot
repository, as a shallow embedding of the relevant Python modules
(`legacy/websocket_manager.py`, `legacy/events.py`,
`legacy/order_management.py`, `legacy/trading_service.py`, `portfolio.py`).

Conventions of the embedding:
* Python floats are modelled as exact rationals (`Rat`); the behavioural
  claims are about the arithmetic, not about rounding.
* Python truthiness on optional floats (`if x:` treats both `None` and
  `0.0` as false) is modelled explicitly where the source relies on it.
* `datetime` timestamps, log lines and UI strings carry no behavioural
  content for the claims and are omitted.
* Fallible operations return result values, mirroring the source's
  result dictionaries.
-/

namespace TradingBot

/-! ## `websocket_manager.CircularBuffer`

`CircularBuffer.__init__` wraps `deque(maxlen=maxsize)`: appending to a
full deque evicts the oldest element, so the deque always holds the most
recent `maxsize` items, oldest first. -/

structure CircularBuffer (α : Type) where
  maxsize : Nat
  buffer : List α
deriving Repr, DecidableEq

namespace CircularBuffer

/-- A fresh buffer, as built by `CircularBuffer.__init__(maxsize)`. -/
def empty (α : Type) (maxsize : Nat) : CircularBuffer α :=
  { maxsize := maxsize, buffer := [] }

/-- `CircularBuffer.append`: `deque(maxlen=maxsize)` keeps the most recent
`maxsize` items, dropping from the front on overflow. -/
def append (b : CircularBuffer α) (x : α) : CircularBuffer α :=
  let l := b.buffer ++ [x]
  { b with buffer := l.drop (l.length - b.maxsize) }

/-- Append a whole sequence of records, one `append` at a time. -/
def appendAll (b : CircularBuffer α) (xs : List α) : CircularBuffer α :=
  xs.foldl append b

/-- `CircularBuffer.get_recent(count)`: `list(self.buffer)[-count:]` when
`count <= len(self.buffer)`, else the whole buffer. -/
def get_recent (b : CircularBuffer α) (count : Nat) : List α :=
  if count ≤ b.buffer.length then b.buffer.drop (b.buffer.length - count)
  else b.buffer

/-- `CircularBuffer.get_all`. -/
def get_all (b : CircularBuffer α) : List α := b.buffer

end CircularBuffer

/-! ## `events.EventBus`

The bus keeps per-event-type lists of weak references to synchronous
handlers.  A handler reference is modelled by an id plus a liveness flag
(`weakref` that may have died).  `publish` appends to the bounded history,
then invokes every live synchronous subscriber for the event's type in
registration order, skipping and afterwards pruning dead references.
Asynchronous subscribers are dispatched on a separate task and are not
part of the synchronous delivery order modelled here. -/

structure TradingEvent where
  event_type : String
  payload : Nat
deriving Repr, DecidableEq

structure SyncSubscriber where
  id : Nat
  alive : Bool
deriving Repr, DecidableEq

/-- First-match association-list lookup (Python `dict` access). -/
def alookup {β : Type} : List (String × β) → String → Option β
  | [], _ => none
  | (k, v) :: rest, key => if k = key then some v else alookup rest key

/-- `dict` update: replace the value at an existing key, else append. -/
def aset {β : Type} (l : List (String × β)) (key : String) (v : β) :
    List (String × β) :=
  if (alookup l key).isSome then
    l.map (fun p => if p.1 = key then (key, v) else p)
  else l ++ [(key, v)]

structure EventBus where
  subscribers : List (String × List SyncSubscriber)
  event_history : List TradingEvent
  max_history : Nat
deriving Repr, DecidableEq

namespace EventBus

/-- `self._subscribers.get(event_type, [])`. -/
def getSubscribers (bus : EventBus) (event_type : String) :
    List SyncSubscriber :=
  match alookup bus.subscribers event_type with
  | some l => l
  | none => []

/-- `EventBus.publish` restricted to its synchronous dispatch path:
append to the bounded history, then deliver to each live subscriber of
the event's type in registration order (`_notify_sync_subscribers`),
pruning dead references afterwards.  Returns the updated bus and the
ordered list of (handler id, event) invocations. -/
def publish (bus : EventBus) (e : TradingEvent) :
    EventBus × List (Nat × TradingEvent) :=
  let hist1 := bus.event_history ++ [e]
  let hist2 := if bus.max_history < hist1.length then hist1.drop 1 else hist1
  let subs := bus.getSubscribers e.event_type
  let deliveries := (subs.filter (·.alive)).map (fun s => (s.id, e))
  let dead := subs.filter (fun s => !s.alive)
  let bus1 := { bus with event_history := hist2 }
  let bus2 :=
    if dead.isEmpty then bus1
    else { bus1 with
           subscribers :=
             aset bus1.subscribers e.event_type (subs.filter (·.alive)) }
  (bus2, deliveries)

/-- Publish a sequence of events one after the other, concatenating the
synchronous delivery traces in publish order. -/
def publish_seq (bus : EventBus) : List TradingEvent →
    EventBus × List (Nat × TradingEvent)
  | [] => (bus, [])
  | e :: rest =>
    let r := publish bus e
    let r2 := publish_seq r.1 rest
    (r2.1, r.2 ++ r2.2)

end EventBus

/-! ## `websocket_manager.WebSocketStreamManager._maintain_connection`

One supervised task per stream.  The task loops while
`reconnect_count < max_reconnect_attempts`, attempting one connection
per iteration.  A successful connection resets `reconnect_count` to 0;
when it later drops (or the attempt fails) the task increments the
counter and sleeps `self.reconnect_delay` seconds — a constant, read
straight from the field — before retrying.  When the counter reaches
`max_reconnect_attempts` the loop exits after logging
"Max reconnection attempts reached"; the source has no stream-status
field to set and publishes no event at that point.

The environment is a schedule of attempt outcomes (`true` = connect
succeeded and the connection later dropped, `false` = the attempt
failed); `is_running` is taken to stay `true`.  The action alphabet
includes `streamSetFailed` and `publishSystemDegraded` — actions the
event publisher could express — so that their absence from every trace
is statable. -/

inductive WSAction
  | connectAttempt
  | sleepDelay (seconds : Nat)
  | maxAttemptsReached
  | streamSetFailed
  | publishSystemDegraded
deriving Repr, DecidableEq

/-- Trace of `_maintain_connection` run against a schedule of attempt
outcomes, starting from a given `reconnect_count`. -/
def maintain_connection (max_reconnect_attempts reconnect_delay : Nat) :
    Nat → List Bool → List WSAction
  | reconnect_count, [] =>
    if reconnect_count < max_reconnect_attempts then []
    else [.maxAttemptsReached]
  | reconnect_count, ok :: rest =>
    if reconnect_count < max_reconnect_attempts then
      let afterAttempt := if ok then 0 else reconnect_count
      .connectAttempt :: .sleepDelay reconnect_delay ::
        maintain_connection max_reconnect_attempts reconnect_delay
          (afterAttempt + 1) rest
    else [.maxAttemptsReached]

/-- `_subscribe_to_stream` creates a fresh `_maintain_connection` task,
whose local `reconnect_count` starts at 0. -/
def subscribe_to_stream (max_reconnect_attempts reconnect_delay : Nat)
    (outcomes : List Bool) : List WSAction :=
  maintain_connection max_reconnect_attempts reconnect_delay 0 outcomes

/-- Number of connection attempts appearing in a trace. -/
def countAttempts (tr : List WSAction) : Nat :=
  tr.countP (fun a =>
    match a with
    | WSAction.connectAttempt => true
    | _ => false)

/-- The sleep durations appearing in a trace, in order. -/
def sleepDurations (tr : List WSAction) : List Nat :=
  tr.filterMap (fun a =>
    match a with
    | WSAction.sleepDelay d => some d
    | _ => none)

/-! ## `order_management` — data model

Enums and dataclasses, with Python floats as rationals.  `datetime`
fields, the `time_in_force`/`trailing_delta`/`reduce_only` parameters
and the free-text `strategy`/`notes` metadata never influence the
behaviour under verification and are omitted. -/

inductive OrderType
  | MARKET | LIMIT | STOP_LOSS | STOP_LOSS_LIMIT
  | TAKE_PROFIT | TAKE_PROFIT_LIMIT | TRAILING_STOP | OCO
deriving Repr, DecidableEq

inductive OrderStatus
  | PENDING | SUBMITTED | PARTIALLY_FILLED | FILLED
  | CANCELLED | REJECTED | EXPIRED
deriving Repr, DecidableEq

inductive OrderSide
  | BUY | SELL
deriving Repr, DecidableEq

structure RiskParameters where
  max_position_size : ℚ := 1000
  max_position_percentage : ℚ := 1/10
  stop_loss_percentage : ℚ := 1/50
  take_profit_percentage : ℚ := 1/25
  max_daily_loss : ℚ := 100
  max_orders_per_symbol : Nat := 5
  allow_margin : Bool := false
  require_confirmation : Bool := true
deriving Repr, DecidableEq

structure OrderRequest where
  symbol : String
  side : OrderSide
  order_type : OrderType
  quantity : ℚ
  price : Option ℚ := none
  stop_price : Option ℚ := none
  parent_order_id : Option String := none
  stop_loss_price : Option ℚ := none
  take_profit_price : Option ℚ := none
  client_order_id : String
deriving Repr, DecidableEq

structure Order where
  order_id : String
  client_order_id : String
  symbol : String
  side : OrderSide
  order_type : OrderType
  status : OrderStatus
  quantity : ℚ
  filled_quantity : ℚ := 0
  price : Option ℚ := none
  stop_price : Option ℚ := none
  parent_order_id : Option String := none
  child_orders : List String := []
  stop_loss_order_id : Option String := none
  take_profit_order_id : Option String := none
deriving Repr, DecidableEq

/-- `__post_init__`: `remaining_quantity = quantity - filled_quantity`. -/
def Order.remaining_quantity (o : Order) : ℚ :=
  o.quantity - o.filled_quantity

/-- Python truthiness of an optional float: `x or d` yields `d` exactly
when `x` is `None` or `0.0`. -/
def pyOr (x : Option ℚ) (d : ℚ) : ℚ :=
  match x with
  | some v => if v = 0 then d else v
  | none => d

/-! ## `order_management.PositionSizer.calculate_position_size` -/

structure PositionSizeResult where
  optimal_quantity : ℚ
  max_quantity_by_risk : ℚ
  recommended_quantity : ℚ
  position_value : ℚ
  risk_amount : ℚ
  risk_percentage : ℚ
deriving Repr, DecidableEq

/-- `PositionSizer.calculate_position_size`.  The `if stop_loss_price:`
guard is Python truthiness, so `None` and `0.0` both take the default
2 %-stop branch; the `risk_per_unit > 0` guards are kept as written. -/
def calculate_position_size (rp : RiskParameters) (_symbol : String)
    (entry_price : ℚ) (stop_loss_price : Option ℚ)
    (account_balance : ℚ) (risk_percentage : ℚ) : PositionSizeResult :=
  let max_risk_amount := account_balance * risk_percentage
  let defaultPair : ℚ × ℚ :=
    let rpu := entry_price * rp.stop_loss_percentage
    (rpu, if 0 < rpu then max_risk_amount / rpu else 0)
  let pair : ℚ × ℚ :=
    match stop_loss_price with
    | some slp =>
      if slp = 0 then defaultPair
      else
        let price_diff := |entry_price - slp|
        (price_diff, if 0 < price_diff then max_risk_amount / price_diff else 0)
    | none => defaultPair
  let risk_per_unit := pair.1
  let optimal_size := pair.2
  let max_position_value :=
    min rp.max_position_size (account_balance * rp.max_position_percentage)
  let max_size_by_value := max_position_value / entry_price
  let final_size := min optimal_size max_size_by_value
  { optimal_quantity := optimal_size
    max_quantity_by_risk := max_size_by_value
    recommended_quantity := final_size
    position_value := final_size * entry_price
    risk_amount := min max_risk_amount (risk_per_unit * final_size)
    risk_percentage := risk_per_unit * final_size / account_balance * 100 }

/-- The sizing formula in the words of the spec (for comparison with the
source's `calculate_position_size`): risk amount = equity · risk %;
per-unit risk = `|entry − stop|` when a stop is given (a zero stop
counts as absent), else entry · default stop %; raw quantity =
risk amount / per-unit risk, with division by zero yielding 0 (which is
the rational-division convention); recommended quantity =
`min(raw, max_position_size / entry, equity · max_position_percentage / entry)`. -/
def spec_recommended_quantity (rp : RiskParameters) (entry_price : ℚ)
    (stop_loss_price : Option ℚ) (equity risk_percentage : ℚ) : ℚ :=
  let risk_amount := equity * risk_percentage
  let per_unit_risk :=
    match stop_loss_price with
    | some s => if s = 0 then entry_price * rp.stop_loss_percentage
                else |entry_price - s|
    | none => entry_price * rp.stop_loss_percentage
  let raw_quantity := risk_amount / per_unit_risk
  min raw_quantity
    (min (rp.max_position_size / entry_price)
      (equity * rp.max_position_percentage / entry_price))

/-! ## `order_management.OrderValidator.validate_order`

Error and warning messages are modelled as tags, one per distinct
message the source can emit, appended in the source's check order. -/

inductive ValidationError
  | maxOrdersPerSymbol
  | positionSizeExceeded
  | positionPercentageExceeded
  | stopLossNotBelowEntryForBuy
  | stopLossNotAboveEntryForSell
deriving Repr, DecidableEq

inductive ValidationWarning
  | priceDeviation
  | largeOrderConfirmation
deriving Repr, DecidableEq

structure ValidationResult where
  is_valid : Bool
  warnings : List ValidationWarning
  errors : List ValidationError
deriving Repr, DecidableEq

/-- An order is "active" for the per-symbol concurrent-order count. -/
def isActiveStatus (s : OrderStatus) : Bool :=
  s == .PENDING || s == .SUBMITTED || s == .PARTIALLY_FILLED

/-- `OrderValidator.validate_order`.  The stop-loss side check fires only
when both `stop_loss_price` and `price` are truthy (`if
order_request.stop_loss_price and order_request.price:`), and the price
deviation warning only when both `price` and `current_price` are truthy. -/
def validate_order (rp : RiskParameters) (req : OrderRequest)
    (current_orders : List Order) (account_balance current_price : ℚ) :
    ValidationResult :=
  let symbol_orders := current_orders.filter (fun o =>
    o.symbol == req.symbol && isActiveStatus o.status)
  let errs1 : List ValidationError :=
    if rp.max_orders_per_symbol ≤ symbol_orders.length
    then [.maxOrdersPerSymbol] else []
  let position_value := req.quantity * pyOr req.price current_price
  let errs2 := errs1 ++
    (if rp.max_position_size < position_value
     then [.positionSizeExceeded] else [])
  let position_percentage := position_value / account_balance
  let errs3 := errs2 ++
    (if rp.max_position_percentage < position_percentage
     then [.positionPercentageExceeded] else [])
  let warns1 : List ValidationWarning :=
    match req.price with
    | some p =>
      if p ≠ 0 ∧ current_price ≠ 0 ∧
          (5/100 : ℚ) < |p - current_price| / current_price
      then [.priceDeviation] else []
    | none => []
  let errs4 := errs3 ++
    (match req.stop_loss_price, req.price with
     | some slp, some p =>
       if slp ≠ 0 ∧ p ≠ 0 then
         if req.side = .BUY then
           if p ≤ slp then [.stopLossNotBelowEntryForBuy] else []
         else
           if slp ≤ p then [.stopLossNotAboveEntryForSell] else []
       else []
     | _, _ => [])
  let warns2 := warns1 ++
    (if account_balance * (5/100) < position_value ∧ rp.require_confirmation
     then [.largeOrderConfirmation] else [])
  { is_valid := errs4.isEmpty, warnings := warns2, errors := errs4 }

/-! ## `order_management.OrderManager` — state and submission

The order table `self.orders` is an insertion-ordered dict.  The
exchange environment supplies the `get_symbol_ticker` price and, in
live mode, whether `create_order` succeeds; in testnet mode
`_simulate_order_submission` always succeeds without touching the
exchange.  The trace records the real exchange interactions
(`get_symbol_ticker`, `create_order`, `cancel_order`); event-bus
notifications and log lines are not modelled. -/

abbrev OrderTable := List (String × Order)

inductive TradingMode
  | testnet | live
deriving Repr, DecidableEq

inductive ExchangeCall
  | getTicker (symbol : String)
  | createOrder (symbol : String)
  | cancelOnExchange (symbol : String)
deriving Repr, DecidableEq

structure SubmitEnv where
  ticker_price : ℚ
  mode : TradingMode
  exchange_accepts : Bool
deriving Repr, DecidableEq

structure OMState where
  orders : OrderTable
  account_balance : ℚ
  risk_params : RiskParameters
  daily_loss_limit_reached : Bool
deriving Repr, DecidableEq

structure SubmitOutcome where
  success : Bool
  order_id : Option String
  validation : ValidationResult
deriving Repr, DecidableEq

/-- Update the order stored at a key (`self.orders[oid]` mutation). -/
def updateOrder (tbl : OrderTable) (oid : String) (f : Order → Order) :
    OrderTable :=
  tbl.map (fun p => if p.1 = oid then (p.1, f p.2) else p)

/-- `self.orders[order.order_id] = order` on a dict. -/
def insertOrder (tbl : OrderTable) (oid : String) (o : Order) : OrderTable :=
  if (alookup tbl oid).isSome then
    tbl.map (fun p => if p.1 = oid then (oid, o) else p)
  else tbl ++ [(oid, o)]

def setOrderStatus (tbl : OrderTable) (oid : String) (s : OrderStatus) :
    OrderTable :=
  updateOrder tbl oid (fun o => { o with status := s })

/-- Status of the order stored at a key, if any. -/
def statusOf (tbl : OrderTable) (oid : String) : Option OrderStatus :=
  (alookup tbl oid).map (·.status)

/-- `OrderSide.SELL if parent_order.side == OrderSide.BUY else OrderSide.BUY`. -/
def oppositeSide : OrderSide → OrderSide
  | .BUY => .SELL
  | .SELL => .BUY

/-- `OrderManager.submit_order` without the linked-child orchestration:
fetch the ticker, validate, check the daily-loss breaker, store the
order as PENDING, submit to the exchange (simulated in testnet mode),
and move it to SUBMITTED or REJECTED.  Child submissions re-enter this
same path (their requests carry no stop-loss/take-profit prices). -/
def submit_core (st : OMState) (env : SubmitEnv) (req : OrderRequest) :
    OMState × SubmitOutcome × List ExchangeCall :=
  let current_price := env.ticker_price
  let calls0 := [ExchangeCall.getTicker req.symbol]
  let validation := validate_order st.risk_params req
    (st.orders.map Prod.snd) st.account_balance current_price
  if validation.is_valid = false then
    (st, { success := false, order_id := none, validation }, calls0)
  else if st.daily_loss_limit_reached then
    (st, { success := false, order_id := none, validation }, calls0)
  else
    let order : Order :=
      { order_id := req.client_order_id
        client_order_id := req.client_order_id
        symbol := req.symbol
        side := req.side
        order_type := req.order_type
        status := .PENDING
        quantity := req.quantity
        price := req.price
        stop_price := req.stop_price
        parent_order_id := req.parent_order_id }
    let st1 := { st with orders := insertOrder st.orders order.order_id order }
    match env.mode with
    | .testnet =>
      let st2 := { st1 with
        orders := setOrderStatus st1.orders order.order_id .SUBMITTED }
      (st2, { success := true, order_id := some order.order_id, validation },
        calls0)
    | .live =>
      let calls1 := calls0 ++ [ExchangeCall.createOrder req.symbol]
      if env.exchange_accepts then
        let st2 := { st1 with
          orders := setOrderStatus st1.orders order.order_id .SUBMITTED }
        (st2, { success := true, order_id := some order.order_id, validation },
          calls1)
      else
        let st2 := { st1 with
          orders := setOrderStatus st1.orders order.order_id .REJECTED }
        (st2, { success := false, order_id := some order.order_id, validation },
          calls1)

/-- `_submit_stop_loss_order`'s child request (opposite side, STOP_LOSS,
parent's quantity, `stop_price` = the stop-loss price, linked via
`parent_order_id`; no price and no stop-loss/take-profit of its own). -/
def stopLossChildRequest (req : OrderRequest) (slp : ℚ)
    (child_id : String) : OrderRequest :=
  { symbol := req.symbol
    side := oppositeSide req.side
    order_type := .STOP_LOSS
    quantity := req.quantity
    stop_price := some slp
    parent_order_id := some req.client_order_id
    client_order_id := child_id }

/-- `_submit_take_profit_order`'s child request (opposite side,
TAKE_PROFIT, parent's quantity, `price` = the take-profit price). -/
def takeProfitChildRequest (req : OrderRequest) (tpp : ℚ)
    (child_id : String) : OrderRequest :=
  { symbol := req.symbol
    side := oppositeSide req.side
    order_type := .TAKE_PROFIT
    quantity := req.quantity
    price := some tpp
    parent_order_id := some req.client_order_id
    client_order_id := child_id }

/-- `OrderManager.submit_order` including `_submit_stop_loss_order` and
`_submit_take_profit_order`: after a successful parent submission, a
truthy `stop_loss_price` (resp. `take_profit_price`) triggers a child
submission through the same path; on child success the child id is
recorded on the parent (`stop_loss_order_id`/`take_profit_order_id` and
`child_orders`).  The fresh uuid4 client ids of the children are
supplied as parameters. -/
def submit_order (st : OMState) (env : SubmitEnv) (req : OrderRequest)
    (sl_child_id tp_child_id : String) :
    OMState × SubmitOutcome × List ExchangeCall :=
  let r1 := submit_core st env req
  let st1 := r1.1
  let res := r1.2.1
  let calls1 := r1.2.2
  if res.success then
    let parent_id := req.client_order_id
    let afterSl : OMState × List ExchangeCall :=
      match req.stop_loss_price with
      | some slp =>
        if slp = 0 then (st1, calls1)
        else
          let rc := submit_core st1 env (stopLossChildRequest req slp sl_child_id)
          if rc.2.1.success then
            let recordChild := fun (o : Order) =>
              { o with stop_loss_order_id := some sl_child_id,
                       child_orders := o.child_orders ++ [sl_child_id] }
            ({ rc.1 with orders := updateOrder rc.1.orders parent_id recordChild },
             calls1 ++ rc.2.2)
          else (rc.1, calls1 ++ rc.2.2)
      | none => (st1, calls1)
    let afterTp : OMState × List ExchangeCall :=
      match req.take_profit_price with
      | some tpp =>
        if tpp = 0 then afterSl
        else
          let rc := submit_core afterSl.1 env
            (takeProfitChildRequest req tpp tp_child_id)
          if rc.2.1.success then
            let recordChild := fun (o : Order) =>
              { o with take_profit_order_id := some tp_child_id,
                       child_orders := o.child_orders ++ [tp_child_id] }
            ({ rc.1 with orders := updateOrder rc.1.orders parent_id recordChild },
             afterSl.2 ++ rc.2.2)
          else (rc.1, afterSl.2 ++ rc.2.2)
      | none => afterSl
    (afterTp.1, res, afterTp.2)
  else (st1, res, calls1)

/-! ## `OrderManager.cancel_order` — the cancellation cascade

`cancel_order` refuses unknown ids and orders outside
{PENDING, SUBMITTED, PARTIALLY_FILLED}, otherwise marks the order
CANCELLED and recursively cancels every id in its `child_orders` list.
The exchange-side cancellation is modelled on the testnet path (the
simulated cancellation always succeeds).  The Python recursion has no
structural bound — children may contain duplicates or cycles through the
table — so the embedding takes an explicit recursion-depth budget
`fuel`; the termination theorem shows any budget beyond the number of
cancellable orders in the table gives the same result. -/

/-- `order.status in [PENDING, SUBMITTED, PARTIALLY_FILLED]`. -/
def can_cancel (s : OrderStatus) : Bool :=
  s == .PENDING || s == .SUBMITTED || s == .PARTIALLY_FILLED

mutual
/-- `OrderManager.cancel_order(order_id)`: the returned Bool is the
`success` field of the result dict. -/
def cancel_order (fuel : Nat) (tbl : OrderTable) (order_id : String) :
    OrderTable × Bool :=
  match fuel with
  | 0 => (tbl, false)
  | fuel' + 1 =>
    match alookup tbl order_id with
    | none => (tbl, false)
    | some o =>
      if can_cancel o.status then
        let tbl1 := setOrderStatus tbl order_id .CANCELLED
        (cancel_children fuel' tbl1 o.child_orders, true)
      else (tbl, false)
termination_by (fuel, 0)

/-- `for child_order_id in order.child_orders: await self.cancel_order(...)`
(child results are discarded). -/
def cancel_children (fuel : Nat) (tbl : OrderTable) (ids : List String) :
    OrderTable :=
  match ids with
  | [] => tbl
  | c :: rest => cancel_children fuel (cancel_order fuel tbl c).1 rest
termination_by (fuel, ids.length + 1)
end

/-- Number of orders in the table that `cancel_order` would accept. -/
def cancellableCount (tbl : OrderTable) : Nat :=
  (tbl.filter (fun p => can_cancel p.2.status)).length

/-! ## `portfolio.Portfolio` and `trading_service.TradingService.monitor_positions`

Positions keep the source's string-typed `side` (`'buy'`/`'sell'`) and
`status` (`'open'`/`'closed'`).  `monitor_positions` iterates over the
positions that were open when the sweep started, refreshes each one's
PnL from the current ticker price, and on a stop-loss/take-profit
trigger immediately awaits `TradingService.close_position`, which closes
the first open position with that symbol, realises the PnL into the
balance and appends to the trade history.  Each triggered call is one
closing-order submission; the count of those is returned alongside the
new portfolio.  (The risk manager's daily-loss tracking and the
published events do not influence which closes happen and are not
modelled.) -/

structure Position where
  symbol : String
  side : String
  quantity : ℚ
  entry_price : ℚ
  stop_loss : Option ℚ := none
  take_profit : Option ℚ := none
  exit_price : Option ℚ := none
  pnl : ℚ := 0
  status : String := "open"
deriving Repr, DecidableEq

namespace Position

/-- `Position.update_pnl`. -/
def update_pnl (p : Position) (current_price : ℚ) : Position :=
  if p.side = "buy" then
    { p with pnl := (current_price - p.entry_price) * p.quantity }
  else
    { p with pnl := (p.entry_price - current_price) * p.quantity }

/-- `Position.close_position`. -/
def close_position (p : Position) (exit_price : ℚ) : Position :=
  update_pnl { p with exit_price := some exit_price, status := "closed" }
    exit_price

end Position

structure Portfolio where
  initial_balance : ℚ
  current_balance : ℚ
  positions : List Position
  trade_history : List Position
deriving Repr, DecidableEq

/-- Close the first open position with the given symbol, in place. -/
def closeFirstOpen : List Position → String → ℚ →
    List Position × Option Position
  | [], _, _ => ([], none)
  | p :: rest, symbol, exit_price =>
    if p.symbol = symbol ∧ p.status = "open" then
      (p.close_position exit_price :: rest, some (p.close_position exit_price))
    else
      let r := closeFirstOpen rest symbol exit_price
      (p :: r.1, r.2)

/-- `Portfolio.close_position(symbol, exit_price)`. -/
def Portfolio.close_position (pf : Portfolio) (symbol : String)
    (exit_price : ℚ) : Portfolio × Option Position :=
  match closeFirstOpen pf.positions symbol exit_price with
  | (ps, some closed) =>
    ({ pf with positions := ps,
               current_balance := pf.current_balance + closed.pnl,
               trade_history := pf.trade_history ++ [closed] }, some closed)
  | (ps, none) => ({ pf with positions := ps }, none)

/-- `Portfolio.get_open_positions`. -/
def Portfolio.get_open_positions (pf : Portfolio) : List Position :=
  pf.positions.filter (fun p => p.status == "open")

/-- Truthiness of an optional stop/target level (`if position.stop_loss
and ...`): `None` and `0.0` both disable the level. -/
def truthyLevel (x : Option ℚ) : Option ℚ :=
  match x with
  | some v => if v = 0 then none else some v
  | none => none

/-- The stop-loss / take-profit exit test of `monitor_positions`,
side-aware; the `elif` collapses to a disjunction since only the
(unmodelled) exit reason differs. -/
def exitTriggered (p : Position) (current_price : ℚ) : Bool :=
  if p.side = "buy" then
    (match truthyLevel p.stop_loss with
     | some sl => decide (current_price ≤ sl)
     | none => false) ||
    (match truthyLevel p.take_profit with
     | some tp => decide (tp ≤ current_price)
     | none => false)
  else
    (match truthyLevel p.stop_loss with
     | some sl => decide (sl ≤ current_price)
     | none => false) ||
    (match truthyLevel p.take_profit with
     | some tp => decide (current_price ≤ tp)
     | none => false)

/-- Indices of the positions that are open when the sweep starts (the
list `self.portfolio.get_open_positions()` is computed once; the loop
then works on those same position objects, here addressed by index). -/
def openIndices (ps : List Position) : List Nat :=
  (List.range ps.length).filter (fun i =>
    match ps.get? i with
    | some p => p.status == "open"
    | none => false)

/-- One `TradingService.monitor_positions` sweep.  `price_of` is the
ticker: both the sweep and the nested `close_position` read the current
price from it.  Returns the portfolio after the sweep and the number of
closing-order submissions made. -/
def monitor_positions (price_of : String → ℚ) (pf : Portfolio) :
    Portfolio × Nat :=
  (openIndices pf.positions).foldl
    (fun acc i =>
      match acc.1.positions.get? i with
      | none => acc
      | some p =>
        let current_price := price_of p.symbol
        let p1 := p.update_pnl current_price
        let pf1 := { acc.1 with positions := acc.1.positions.set i p1 }
        if exitTriggered p1 current_price then
          ((pf1.close_position p1.symbol (price_of p1.symbol)).1, acc.2 + 1)
        else (pf1, acc.2))
    (pf, 0)

/-- Successive monitor cycles against a single-symbol price feed: cycle
`t` observes price `price_seq[t]`.  Returns the final portfolio and the
total number of closing-order submissions. -/
def monitor_cycles : List ℚ → Portfolio → Portfolio × Nat
  | [], pf => (pf, 0)
  | pr :: rest, pf =>
    let r := monitor_positions (fun _ => pr) pf
    let r2 := monitor_cycles rest r.1
    (r2.1, r.2 + r2.2)

/-! ## Verification infrastructure

Relations and concrete fixtures used by the theorems below; none of
these model source code. -/

/-- An order either stays as it is or has (only) its status flipped to
CANCELLED. -/
def cancelsTo (o o' : Order) : Prop :=
  o' = o ∨ o' = { o with status := OrderStatus.CANCELLED }

/-- Pointwise: a cancellation pass preserves keys, order and every field
except possibly a status flipped to CANCELLED. -/
def onlyCancels (tbl tbl' : OrderTable) : Prop :=
  List.Forall₂ (fun p q => q.1 = p.1 ∧ cancelsTo p.2 q.2) tbl tbl'

/-- Is an exchange interaction an order-placement call? -/
def isPlaceOrderCall : ExchangeCall → Bool
  | .createOrder _ => true
  | _ => false

/-- A SUBMITTED limit order used to build concrete tables. -/
def exOrder (oid : String) (st : OrderStatus) (children : List String) :
    Order :=
  { order_id := oid, client_order_id := oid, symbol := "BTCUSDT",
    side := .BUY, order_type := .LIMIT, status := st, quantity := 1,
    child_orders := children }

/-- Parent with recorded stop-loss and take-profit children, all three
cancellable. -/
def exTableOk : OrderTable :=
  [("p", { exOrder "p" .SUBMITTED ["sl", "tp"] with
           stop_loss_order_id := some "sl",
           take_profit_order_id := some "tp" }),
   ("sl", exOrder "sl" .SUBMITTED []),
   ("tp", exOrder "tp" .SUBMITTED [])]

/-- Same shape, but the stop-loss child has already FILLED. -/
def exTableFilledChild : OrderTable :=
  [("p", { exOrder "p" .SUBMITTED ["sl", "tp"] with
           stop_loss_order_id := some "sl",
           take_profit_order_id := some "tp" }),
   ("sl", exOrder "sl" .FILLED []),
   ("tp", exOrder "tp" .SUBMITTED [])]

/-- Two cancellable orders whose child links form a cycle. -/
def exTableCycle : OrderTable :=
  [("a", exOrder "a" .SUBMITTED ["b"]),
   ("b", exOrder "b" .SUBMITTED ["a"])]

/-- Fresh manager state: empty order table, $10000 equity, default risk
parameters, breaker not tripped. -/
def exState : OMState :=
  { orders := [], account_balance := 10000, risk_params := {},
    daily_loss_limit_reached := false }

/-- The oversized request of the risk-gating scenario: quantity 1 at
price 50000 (position value 50000). -/
def exOversizedRequest : OrderRequest :=
  { symbol := "BTCUSDT", side := .BUY, order_type := .LIMIT,
    quantity := 1, price := some 50000, client_order_id := "parent-1" }

/-- A market BUY request (no explicit price) carrying a stop-loss above
the 50000 market price — on the wrong side for a BUY. -/
def exBadStopMarketRequest : OrderRequest :=
  { symbol := "BTCUSDT", side := .BUY, order_type := .MARKET,
    quantity := 1/100, stop_loss_price := some 60000,
    client_order_id := "parent-2" }

/-- A limit BUY request with an explicit price and a stop-loss above it. -/
def exBadStopLimitRequest : OrderRequest :=
  { symbol := "BTCUSDT", side := .BUY, order_type := .LIMIT,
    quantity := 1/100, price := some 50000,
    stop_loss_price := some 60000, client_order_id := "parent-3" }

/-- Testnet exchange environment quoting 50000. -/
def exEnvTestnet : SubmitEnv :=
  { ticker_price := 50000, mode := .testnet, exchange_accepts := true }

/-- Live exchange environment quoting 50000, accepting orders. -/
def exEnvLive : SubmitEnv :=
  { ticker_price := 50000, mode := .live, exchange_accepts := true }

/-- An open buy position with a stop at 100. -/
def exPosition : Position :=
  { symbol := "BTCUSDT", side := "buy", quantity := 2,
    entry_price := 105, stop_loss := some 100 }

/-- A market-data event with the given payload. -/
def exEvent (n : Nat) : TradingEvent :=
  { event_type := "market_data", payload := n }

/-- Three market-data events published in sequence. -/
def exEvents : List TradingEvent := [exEvent 1, exEvent 2, exEvent 3]

/-- An event bus with one live synchronous subscriber (id 0) of the
market-data event type. -/
def exBus : EventBus :=
  { subscribers := [("market_data", [{ id := 0, alive := true }])],
    event_history := [], max_history := 1000 }

namespace CircularBuffer

theorem maxsize_append (b : CircularBuffer α) (x : α) :
    (b.append x).maxsize = b.maxsize := rfl

theorem maxsize_appendAll (b : CircularBuffer α) (xs : List α) :
    (b.appendAll xs).maxsize = b.maxsize := by
  induction xs generalizing b with
  | nil => rfl
  | cons x xs ih => simpa [appendAll, append] using ih (b.append x)

theorem length_append_le (b : CircularBuffer α) (x : α)
    (h : b.buffer.length ≤ b.maxsize) :
    (b.append x).buffer.length ≤ b.maxsize := by
  simp only [append, List.length_drop, List.length_append, List.length_cons]
  omega

theorem appendAll_cons (b : CircularBuffer α) (x : α) (xs : List α) :
    b.appendAll (x :: xs) = (b.append x).appendAll xs := rfl

theorem buffer_appendAll (xs : List α) (b : CircularBuffer α)
    (hle : b.buffer.length ≤ b.maxsize) :
    (b.appendAll xs).buffer =
      (b.buffer ++ xs).drop (b.buffer.length + xs.length - b.maxsize) := by
  induction xs generalizing b with
  | nil =>
    have h0 : b.buffer.length - b.maxsize = 0 := by omega
    simp [appendAll, h0]
  | cons x xs ih =>
    have hinv : (b.append x).buffer.length ≤ (b.append x).maxsize := by
      simpa [maxsize_append] using length_append_le b x hle
    have step := ih (b.append x) hinv
    have hbuf : (b.append x).buffer =
        (b.buffer ++ [x]).drop (b.buffer.length + 1 - b.maxsize) := by
      simp [append]
    have hlen : (b.append x).buffer.length =
        b.buffer.length + 1 - (b.buffer.length + 1 - b.maxsize) := by
      rw [hbuf]
      simp
    rw [appendAll_cons, step, maxsize_append, hlen, hbuf]
    rw [← List.drop_append_of_le_length
      (show b.buffer.length + 1 - b.maxsize ≤ (b.buffer ++ [x]).length by
        simp)]
    rw [List.drop_drop]
    have harr : (b.buffer ++ [x]) ++ xs = b.buffer ++ (x :: xs) := by simp
    rw [harr]
    congr 1
    simp only [List.length_cons]
    omega

end CircularBuffer

/-- C3: for every ring buffer of capacity `c` and every `k ≥ 0`,
appending `c + k` records leaves the buffer holding exactly `c` records,
equal to the most recent `c` records appended, in insertion order (the
oldest record is evicted on each insertion beyond capacity). -/
theorem claim_C3_buffer_bound {α : Type} (c k : Nat) (records : List α)
    (hlen : records.length = c + k) :
    ((CircularBuffer.empty α c).appendAll records).buffer
        = records.drop (records.length - c) ∧
    ((CircularBuffer.empty α c).appendAll records).buffer.length = c := by
  have h := CircularBuffer.buffer_appendAll records (CircularBuffer.empty α c)
    (by simp [CircularBuffer.empty])
  have hb : (CircularBuffer.empty α c).buffer = ([] : List α) := rfl
  have hm : (CircularBuffer.empty α c).maxsize = c := rfl
  rw [hb, hm] at h
  simp only [List.nil_append, List.length_nil, Nat.zero_add] at h
  refine ⟨h, ?_⟩
  rw [h]
  simp only [List.length_drop]
  omega

theorem claim_C3_buffer_bound_witness :
    ([10, 20, 30] : List Nat).length = 2 + 1 ∧
    (((CircularBuffer.empty Nat 2).appendAll [10, 20, 30]).buffer
        = [10, 20, 30].drop ([10, 20, 30].length - 2) ∧
     ((CircularBuffer.empty Nat 2).appendAll [10, 20, 30]).buffer.length = 2) :=
  ⟨rfl, claim_C3_buffer_bound 2 1 [10, 20, 30] rfl⟩

/-- C5 (counterexample): the claim says the delay before the `n`-th
reconnection attempt is `base_delay * n`.  With `reconnect_delay = 5`
and two consecutive failed attempts, the source sleeps `[5, 5]`, not the
`[5 * 1, 5 * 2]` the claim demands. -/
theorem claim_C5_counterexample :
    sleepDurations (maintain_connection 10 5 0 [false, false]) = [5, 5] ∧
    ¬ (sleepDurations (maintain_connection 10 5 0 [false, false])
        = [5 * 1, 5 * 2]) := by decide

/-- C5 (amended): after a connection loss or failed connection attempt
the supervisor waits a delay equal to the constant `reconnect_delay` —
independent of the attempt counter, neither linear nor exponential —
before the next reconnection attempt; exactly one such sleep occurs per
attempt. -/
theorem claim_C5_constant_backoff
    (max_attempts delay count : Nat) (outcomes : List Bool) :
    (∀ d ∈ sleepDurations
        (maintain_connection max_attempts delay count outcomes), d = delay) ∧
    (sleepDurations (maintain_connection max_attempts delay count outcomes)).length
      = countAttempts (maintain_connection max_attempts delay count outcomes) := by
  induction outcomes generalizing count with
  | nil =>
    by_cases h : count < max_attempts <;>
      simp [maintain_connection, h, sleepDurations, countAttempts]
  | cons ok rest ih =>
    by_cases h : count < max_attempts
    · have := ih ((if ok then 0 else count) + 1)
      simp only [maintain_connection, if_pos h]
      constructor
      · intro d hd
        simp only [sleepDurations, List.filterMap_cons] at hd
        simp only [List.mem_cons] at hd
        rcases hd with rfl | hd
        · rfl
        · exact this.1 d (by simpa [sleepDurations] using hd)
      · simp only [sleepDurations, countAttempts, List.filterMap_cons,
          List.countP_cons]
        have h2 := this.2
        simp only [sleepDurations, countAttempts] at h2
        simp [h2]
    · simp [maintain_connection, h, sleepDurations, countAttempts]

/-- C6 (counterexample): the claim says that after `max_attempts`
consecutive failed attempts the task transitions the stream to FAILED
and publishes a system-degraded event.  The source has neither: the
exhausted task's trace contains no such action. -/
theorem claim_C6_counterexample :
    WSAction.publishSystemDegraded ∉
      maintain_connection 3 5 0 (List.replicate 3 false) ∧
    WSAction.streamSetFailed ∉
      maintain_connection 3 5 0 (List.replicate 3 false) := by decide

theorem countAttempts_cons_attempt (l : List WSAction) :
    countAttempts (.connectAttempt :: l) = countAttempts l + 1 := by
  simp [countAttempts, List.countP_cons]

theorem countAttempts_cons_sleep (d : Nat) (l : List WSAction) :
    countAttempts (.sleepDelay d :: l) = countAttempts l := by
  simp [countAttempts, List.countP_cons]

theorem countAttempts_all_fail (max_attempts delay : Nat) :
    ∀ (n count : Nat), count ≤ max_attempts →
      countAttempts (maintain_connection max_attempts delay count
          (List.replicate n false))
        = min n (max_attempts - count) := by
  intro n
  induction n with
  | zero =>
    intro count hc
    by_cases h : count < max_attempts <;>
      simp [maintain_connection, h, countAttempts]
  | succ n ih =>
    intro count hc
    by_cases h : count < max_attempts
    · have hrec := ih (count + 1) (by omega)
      rw [List.replicate_succ]
      rw [show maintain_connection max_attempts delay count
            (false :: List.replicate n false)
          = .connectAttempt :: .sleepDelay delay ::
            maintain_connection max_attempts delay (count + 1)
              (List.replicate n false) from by
        simp [maintain_connection, h]]
      rw [countAttempts_cons_attempt, countAttempts_cons_sleep, hrec]
      omega
    · rw [List.replicate_succ]
      rw [show maintain_connection max_attempts delay count
            (false :: List.replicate n false) = [.maxAttemptsReached] from by
        simp [maintain_connection, h]]
      simp [countAttempts]
      omega

theorem getLast_cons_of_ne_nil {α : Type} (a : α) (l : List α)
    (h : l ≠ []) : (a :: l).getLast? = l.getLast? := by
  cases l with
  | nil => exact absurd rfl h
  | cons b t => exact List.getLast?_cons_cons

theorem maintain_connection_last_all_fail (max_attempts delay : Nat) :
    ∀ (n count : Nat), count ≤ max_attempts → max_attempts ≤ count + n →
      (maintain_connection max_attempts delay count
          (List.replicate n false)).getLast?
        = some .maxAttemptsReached := by
  intro n
  induction n with
  | zero =>
    intro count hc hge
    have h : ¬ count < max_attempts := by omega
    simp [maintain_connection, h]
  | succ n ih =>
    intro count hc hge
    by_cases h : count < max_attempts
    · have hrec := ih (count + 1) (by omega) (by omega)
      rw [List.replicate_succ]
      rw [show maintain_connection max_attempts delay count
            (false :: List.replicate n false)
          = .connectAttempt :: .sleepDelay delay ::
            maintain_connection max_attempts delay (count + 1)
              (List.replicate n false) from by
        simp [maintain_connection, h]]
      have hne : maintain_connection max_attempts delay (count + 1)
          (List.replicate n false) ≠ [] := by
        intro hnil
        rw [hnil] at hrec
        simp at hrec
      rw [getLast_cons_of_ne_nil _ _ (by simp [hne]),
        getLast_cons_of_ne_nil _ _ hne, hrec]
    · rw [List.replicate_succ]
      rw [show maintain_connection max_attempts delay count
            (false :: List.replicate n false) = [.maxAttemptsReached] from by
        simp [maintain_connection, h]]
      rfl

/-- C6 (amended): after `max_attempts` consecutive failed connection
attempts the owning task makes no further reconnection attempts — it
attempts exactly `max_attempts` connections no matter how many more
failures the environment would supply, and its trace ends with the
max-attempts warning (the source neither sets a FAILED stream state nor
publishes a system-degraded event, see the counterexample); a subsequent
manual `subscribe` for the same stream key starts a fresh task whose
attempt counter is reset to zero, so it attempts a connection again. -/
theorem claim_C6_reconnect_exhaustion (max_attempts delay k : Nat)
    (hpos : 0 < max_attempts) :
    countAttempts (subscribe_to_stream max_attempts delay
        (List.replicate (max_attempts + k) false)) = max_attempts ∧
    (subscribe_to_stream max_attempts delay
        (List.replicate (max_attempts + k) false)).getLast?
      = some .maxAttemptsReached ∧
    countAttempts (subscribe_to_stream max_attempts delay [false]) = 1 := by
  refine ⟨?_, ?_, ?_⟩
  · rw [subscribe_to_stream,
      countAttempts_all_fail max_attempts delay (max_attempts + k) 0
        (by omega)]
    omega
  · exact maintain_connection_last_all_fail max_attempts delay
      (max_attempts + k) 0 (by omega) (by omega)
  · have := countAttempts_all_fail max_attempts delay 1 0 (by omega)
    rw [subscribe_to_stream]
    simp only [List.replicate_one] at this
    rw [this]
    omega

theorem claim_C6_reconnect_exhaustion_witness :
    0 < 3 ∧
    (countAttempts (subscribe_to_stream 3 5
        (List.replicate (3 + 2) false)) = 3 ∧
     (subscribe_to_stream 3 5 (List.replicate (3 + 2) false)).getLast?
        = some .maxAttemptsReached ∧
     countAttempts (subscribe_to_stream 3 5 [false]) = 1) :=
  ⟨by decide, claim_C6_reconnect_exhaustion 3 5 2 (by decide)⟩

theorem publish_single_sub (bus : EventBus) (e : TradingEvent)
    (k : String) (hid : Nat)
    (hsub : alookup bus.subscribers k = some [⟨hid, true⟩])
    (hek : e.event_type = k) :
    (EventBus.publish bus e).1.subscribers = bus.subscribers ∧
    (EventBus.publish bus e).2 = [(hid, e)] := by
  constructor <;>
    simp [EventBus.publish, EventBus.getSubscribers, hek, hsub, List.filter]

/-- C9: if events of the same kind are published sequentially, a single
live synchronous subscriber registered for that kind has its handler
invoked with exactly those events in exactly the publish order. -/
theorem claim_C9_event_ordering (bus : EventBus) (k : String) (hid : Nat)
    (es : List TradingEvent)
    (hsub : alookup bus.subscribers k = some [⟨hid, true⟩])
    (hk : ∀ e ∈ es, e.event_type = k) :
    (EventBus.publish_seq bus es).2 = es.map (fun e => (hid, e)) := by
  induction es generalizing bus with
  | nil => rfl
  | cons e rest ih =>
    have he : e.event_type = k := hk e (List.mem_cons_self e rest)
    obtain ⟨h1, h2⟩ := publish_single_sub bus e k hid hsub he
    have hsub' : alookup (EventBus.publish bus e).1.subscribers k
        = some [⟨hid, true⟩] := by rw [h1]; exact hsub
    have hrest := ih (EventBus.publish bus e).1 hsub'
      (fun x hx => hk x (List.mem_cons_of_mem e hx))
    simp only [EventBus.publish_seq]
    rw [h2, hrest]
    simp

theorem claim_C9_event_ordering_witness :
    alookup exBus.subscribers "market_data" = some [⟨0, true⟩] ∧
    (∀ e ∈ exEvents, e.event_type = "market_data") ∧
    (EventBus.publish_seq exBus exEvents).2
      = [(0, exEvent 1), (0, exEvent 2), (0, exEvent 3)] :=
  ⟨by decide, by decide, by
    have h := claim_C9_event_ordering exBus "market_data" 0 exEvents
      (by decide) (by decide)
    simpa [exEvents] using h⟩

/-- C4: position sizing computes risk amount = equity · risk %; per-unit
risk = `|entry − stop|` when a (truthy) stop is given, else
entry · default stop %; raw quantity = risk amount / per-unit risk (zero
per-unit risk yields 0); recommended quantity =
`min(raw, max_position_size / entry, equity · max_position_percentage / entry)`.
In particular the spec's worked example yields 0.02. -/
theorem claim_C4_position_sizing :
    (∀ (rp : RiskParameters) (sym : String) (entry_price : ℚ)
        (stop_loss_price : Option ℚ) (account_balance risk_percentage : ℚ),
      0 < entry_price → 0 ≤ rp.stop_loss_percentage →
      (calculate_position_size rp sym entry_price stop_loss_price
          account_balance risk_percentage).recommended_quantity
        = spec_recommended_quantity rp entry_price stop_loss_price
            account_balance risk_percentage) ∧
    (calculate_position_size {} "BTCUSDT" 50000 (some 49000) 10000
        (1/50)).recommended_quantity = 1/50 := by
  constructor
  · intro rp sym entry stop balance risk hentry hpct
    have hkey : ∀ rpu : ℚ, 0 ≤ rpu →
        (if 0 < rpu then balance * risk / rpu else 0)
          = balance * risk / rpu := by
      intro rpu h
      rcases eq_or_lt_of_le h with heq | hlt
      · rw [if_neg (by rw [← heq]; exact lt_irrefl 0), ← heq, div_zero]
      · rw [if_pos hlt]
    cases stop with
    | none =>
      show min (if 0 < entry * rp.stop_loss_percentage
            then balance * risk / (entry * rp.stop_loss_percentage) else 0)
          (min rp.max_position_size (balance * rp.max_position_percentage)
            / entry)
        = min (balance * risk / (entry * rp.stop_loss_percentage))
          (min (rp.max_position_size / entry)
            (balance * rp.max_position_percentage / entry))
      rw [hkey _ (mul_nonneg hentry.le hpct), min_div_div_right hentry.le]
    | some s =>
      by_cases hs : s = 0
      · have hL : (calculate_position_size rp sym entry (some s) balance
              risk).recommended_quantity
            = min (if 0 < entry * rp.stop_loss_percentage
                then balance * risk / (entry * rp.stop_loss_percentage) else 0)
              (min rp.max_position_size (balance * rp.max_position_percentage)
                / entry) := by
          simp only [calculate_position_size, if_pos hs]
        have hR : spec_recommended_quantity rp entry (some s) balance risk
            = min (balance * risk / (entry * rp.stop_loss_percentage))
              (min (rp.max_position_size / entry)
                (balance * rp.max_position_percentage / entry)) := by
          simp only [spec_recommended_quantity, if_pos hs]
        rw [hL, hR, hkey _ (mul_nonneg hentry.le hpct),
          min_div_div_right hentry.le]
      · have hL : (calculate_position_size rp sym entry (some s) balance
              risk).recommended_quantity
            = min (if 0 < |entry - s|
                then balance * risk / |entry - s| else 0)
              (min rp.max_position_size (balance * rp.max_position_percentage)
                / entry) := by
          simp only [calculate_position_size, if_neg hs]
        have hR : spec_recommended_quantity rp entry (some s) balance risk
            = min (balance * risk / |entry - s|)
              (min (rp.max_position_size / entry)
                (balance * rp.max_position_percentage / entry)) := by
          simp only [spec_recommended_quantity, if_neg hs]
        rw [hL, hR, hkey _ (abs_nonneg _), min_div_div_right hentry.le]
  · have habs : |(50000:ℚ) - 49000| = 1000 := by norm_num
    simp only [calculate_position_size]
    norm_num [habs]

theorem claim_C4_position_sizing_witness :
    (0 : ℚ) < 50000 ∧ (0 : ℚ) ≤ ({} : RiskParameters).stop_loss_percentage ∧
    (calculate_position_size {} "BTCUSDT" 50000 (some 49000) 10000
        (1/50)).recommended_quantity
      = spec_recommended_quantity {} 50000 (some 49000) 10000 (1/50) :=
  ⟨by norm_num,
   by rw [show ({} : RiskParameters).stop_loss_percentage = 1/50 from rfl]
      norm_num,
   claim_C4_position_sizing.1 {} "BTCUSDT" 50000 (some 49000) 10000 (1/50)
     (by norm_num)
     (by rw [show ({} : RiskParameters).stop_loss_percentage = 1/50 from rfl]
         norm_num)⟩

theorem isEmpty_eq_false_of_mem {α : Type} {l : List α} {a : α}
    (h : a ∈ l) : l.isEmpty = false := by
  cases l with
  | nil => exact absurd h (List.not_mem_nil a)
  | cons b t => rfl

theorem validate_order_is_valid_eq (rp : RiskParameters)
    (req : OrderRequest) (cur : List Order) (bal price : ℚ) :
    (validate_order rp req cur bal price).is_valid
      = (validate_order rp req cur bal price).errors.isEmpty := rfl

/-- A failed validation short-circuits `submit_order`: the result is the
validation-failure dict, the state is untouched and the only exchange
interaction is the initial ticker fetch. -/
theorem submit_order_of_invalid (st : OMState) (env : SubmitEnv)
    (req : OrderRequest) (sl_child_id tp_child_id : String)
    (hvalid : (validate_order st.risk_params req (st.orders.map Prod.snd)
        st.account_balance env.ticker_price).is_valid = false) :
    submit_order st env req sl_child_id tp_child_id
      = (st,
         { success := false, order_id := none,
           validation := validate_order st.risk_params req
             (st.orders.map Prod.snd) st.account_balance env.ticker_price },
         [ExchangeCall.getTicker req.symbol]) := by
  have hcore : submit_core st env req
      = (st,
         { success := false, order_id := none,
           validation := validate_order st.risk_params req
             (st.orders.map Prod.snd) st.account_balance env.ticker_price },
         [ExchangeCall.getTicker req.symbol]) := by
    simp only [submit_core]
    rw [if_pos hvalid]
  simp only [submit_order, hcore]
  rw [if_neg (by simp : ¬ (false = true))]

/-- C2: every request whose position value (quantity times the explicit
price, or the ticker price when none is given) exceeds
`max_position_size` is rejected with a failure result carrying the
validation errors; no order-placement call reaches the exchange (only
the initial market-data ticker fetch happens) and the manager state is
unchanged. -/
theorem claim_C2_risk_gating (st : OMState) (env : SubmitEnv)
    (req : OrderRequest) (sl_child_id tp_child_id : String)
    (hbig : st.risk_params.max_position_size <
      req.quantity * pyOr req.price env.ticker_price) :
    (submit_order st env req sl_child_id tp_child_id).2.1.success = false ∧
    ValidationError.positionSizeExceeded ∈
      (submit_order st env req sl_child_id tp_child_id).2.1.validation.errors ∧
    (submit_order st env req sl_child_id tp_child_id).2.1.validation.errors
      ≠ [] ∧
    (∀ c ∈ (submit_order st env req sl_child_id tp_child_id).2.2,
      isPlaceOrderCall c = false) ∧
    (submit_order st env req sl_child_id tp_child_id).1 = st := by
  have hmem : ValidationError.positionSizeExceeded ∈
      (validate_order st.risk_params req (st.orders.map Prod.snd)
        st.account_balance env.ticker_price).errors := by
    simp only [validate_order, List.mem_append]
    refine Or.inl (Or.inl (Or.inr ?_))
    rw [if_pos hbig]
    exact List.mem_singleton.mpr rfl
  have hvalid : (validate_order st.risk_params req (st.orders.map Prod.snd)
      st.account_balance env.ticker_price).is_valid = false := by
    rw [validate_order_is_valid_eq]
    exact isEmpty_eq_false_of_mem hmem
  rw [submit_order_of_invalid st env req sl_child_id tp_child_id hvalid]
  refine ⟨rfl, hmem, List.ne_nil_of_mem hmem, ?_, rfl⟩
  intro c hc
  simp only [List.mem_singleton] at hc
  rw [hc]
  rfl

theorem claim_C2_risk_gating_witness :
    exState.risk_params.max_position_size <
      exOversizedRequest.quantity *
        pyOr exOversizedRequest.price exEnvTestnet.ticker_price ∧
    ((submit_order exState exEnvTestnet exOversizedRequest "sl-1"
        "tp-1").2.1.success = false ∧
     ValidationError.positionSizeExceeded ∈
       (submit_order exState exEnvTestnet exOversizedRequest "sl-1"
         "tp-1").2.1.validation.errors ∧
     (submit_order exState exEnvTestnet exOversizedRequest "sl-1"
        "tp-1").2.1.validation.errors ≠ [] ∧
     (∀ c ∈ (submit_order exState exEnvTestnet exOversizedRequest "sl-1"
        "tp-1").2.2, isPlaceOrderCall c = false) ∧
     (submit_order exState exEnvTestnet exOversizedRequest "sl-1"
        "tp-1").1 = exState) :=
  ⟨by norm_num [exState, exOversizedRequest, exEnvTestnet, pyOr],
   claim_C2_risk_gating exState exEnvTestnet exOversizedRequest "sl-1" "tp-1"
     (by norm_num [exState, exOversizedRequest, exEnvTestnet, pyOr])⟩

/-- C8 (counterexample): the claim says a stop-loss on the wrong side of
entry is rejected *regardless of whether an explicit limit price is
present*.  The source's side check fires only when the request carries a
truthy price: a market BUY with no price and a stop-loss of 60000
against a 50000 market passes validation, the submission succeeds, and
in live mode an order-placement call is made to the exchange. -/
theorem claim_C8_counterexample :
    (submit_order exState exEnvTestnet exBadStopMarketRequest
        "sl-2" "tp-2").2.1.success = true ∧
    ExchangeCall.createOrder "BTCUSDT" ∈
      (submit_order exState exEnvLive exBadStopMarketRequest
        "sl-2" "tp-2").2.2 := by
  constructor <;>
    norm_num [submit_order, submit_core, validate_order, insertOrder,
      setOrderStatus, updateOrder, alookup, pyOr, isActiveStatus, exState,
      exBadStopMarketRequest, stopLossChildRequest, oppositeSide,
      exEnvTestnet, exEnvLive]

/-- C8 (amended): for every order request that carries a truthy explicit
price and a truthy stop-loss price on the wrong side of that price for
its side — at or above it for a BUY, at or below it for a SELL — submit
rejects the request with a failure result, no order-placement call is
made to the exchange and the manager state is unchanged.  (When the
request has no truthy explicit price the check is skipped, see the
counterexample.) -/
theorem claim_C8_stop_loss_side (st : OMState) (env : SubmitEnv)
    (req : OrderRequest) (sl_child_id tp_child_id : String) (p slp : ℚ)
    (hp : req.price = some p) (hp0 : p ≠ 0)
    (hsl : req.stop_loss_price = some slp) (hsl0 : slp ≠ 0)
    (hside : (req.side = OrderSide.BUY ∧ p ≤ slp) ∨
             (req.side = OrderSide.SELL ∧ slp ≤ p)) :
    (submit_order st env req sl_child_id tp_child_id).2.1.success = false ∧
    (ValidationError.stopLossNotBelowEntryForBuy ∈
        (submit_order st env req sl_child_id
          tp_child_id).2.1.validation.errors ∨
     ValidationError.stopLossNotAboveEntryForSell ∈
        (submit_order st env req sl_child_id
          tp_child_id).2.1.validation.errors) ∧
    (∀ c ∈ (submit_order st env req sl_child_id tp_child_id).2.2,
      isPlaceOrderCall c = false) ∧
    (submit_order st env req sl_child_id tp_child_id).1 = st := by
  have hmem : (ValidationError.stopLossNotBelowEntryForBuy ∈
      (validate_order st.risk_params req (st.orders.map Prod.snd)
        st.account_balance env.ticker_price).errors) ∨
      (ValidationError.stopLossNotAboveEntryForSell ∈
      (validate_order st.risk_params req (st.orders.map Prod.snd)
        st.account_balance env.ticker_price).errors) := by
    rcases hside with ⟨hbuy, hle⟩ | ⟨hsell, hle⟩
    · refine Or.inl ?_
      simp only [validate_order, hsl, hp, List.mem_append]
      refine Or.inr ?_
      rw [if_pos ⟨hsl0, hp0⟩, hbuy, if_pos rfl, if_pos hle]
      exact List.mem_singleton.mpr rfl
    · refine Or.inr ?_
      simp only [validate_order, hsl, hp, List.mem_append]
      refine Or.inr ?_
      rw [if_pos ⟨hsl0, hp0⟩, hsell,
        if_neg (by intro hcontra; exact OrderSide.noConfusion hcontra),
        if_pos hle]
      exact List.mem_singleton.mpr rfl
  have hvalid : (validate_order st.risk_params req (st.orders.map Prod.snd)
      st.account_balance env.ticker_price).is_valid = false := by
    rw [validate_order_is_valid_eq]
    rcases hmem with h | h <;> exact isEmpty_eq_false_of_mem h
  rw [submit_order_of_invalid st env req sl_child_id tp_child_id hvalid]
  refine ⟨rfl, hmem, ?_, rfl⟩
  intro c hc
  simp only [List.mem_singleton] at hc
  rw [hc]
  rfl

theorem claim_C8_stop_loss_side_witness :
    exBadStopLimitRequest.price = some 50000 ∧
    exBadStopLimitRequest.stop_loss_price = some 60000 ∧
    ((exBadStopLimitRequest.side = OrderSide.BUY ∧ (50000 : ℚ) ≤ 60000) ∨
     (exBadStopLimitRequest.side = OrderSide.SELL ∧ (60000 : ℚ) ≤ 50000)) ∧
    ((submit_order exState exEnvTestnet exBadStopLimitRequest "sl-3"
        "tp-3").2.1.success = false ∧
     (ValidationError.stopLossNotBelowEntryForBuy ∈
        (submit_order exState exEnvTestnet exBadStopLimitRequest "sl-3"
          "tp-3").2.1.validation.errors ∨
      ValidationError.stopLossNotAboveEntryForSell ∈
        (submit_order exState exEnvTestnet exBadStopLimitRequest "sl-3"
          "tp-3").2.1.validation.errors) ∧
     (∀ c ∈ (submit_order exState exEnvTestnet exBadStopLimitRequest "sl-3"
        "tp-3").2.2, isPlaceOrderCall c = false) ∧
     (submit_order exState exEnvTestnet exBadStopLimitRequest "sl-3"
        "tp-3").1 = exState) :=
  ⟨rfl, rfl, Or.inl ⟨rfl, by norm_num⟩,
   claim_C8_stop_loss_side exState exEnvTestnet exBadStopLimitRequest
     "sl-3" "tp-3" 50000 60000 rfl (by norm_num) rfl (by norm_num)
     (Or.inl ⟨rfl, by norm_num⟩)⟩

@[simp] theorem update_pnl_side (p : Position) (pr : ℚ) :
    (p.update_pnl pr).side = p.side := by
  unfold Position.update_pnl
  split <;> rfl

@[simp] theorem update_pnl_status (p : Position) (pr : ℚ) :
    (p.update_pnl pr).status = p.status := by
  unfold Position.update_pnl
  split <;> rfl

@[simp] theorem update_pnl_symbol (p : Position) (pr : ℚ) :
    (p.update_pnl pr).symbol = p.symbol := by
  unfold Position.update_pnl
  split <;> rfl

@[simp] theorem update_pnl_stop_loss (p : Position) (pr : ℚ) :
    (p.update_pnl pr).stop_loss = p.stop_loss := by
  unfold Position.update_pnl
  split <;> rfl

@[simp] theorem update_pnl_take_profit (p : Position) (pr : ℚ) :
    (p.update_pnl pr).take_profit = p.take_profit := by
  unfold Position.update_pnl
  split <;> rfl

@[simp] theorem close_position_status (p : Position) (pr : ℚ) :
    (p.close_position pr).status = "closed" := by
  unfold Position.close_position
  simp

theorem openIndices_single_open (p : Position) (hp : p.status = "open") :
    openIndices [p] = [0] := by
  unfold openIndices
  rw [show List.range [p].length = [0] from rfl]
  simp [hp]

theorem openIndices_single_closed (q : Position) (hq : q.status = "closed") :
    openIndices [q] = [] := by
  unfold openIndices
  rw [show List.range [q].length = [0] from rfl]
  simp [hq]

/-- A sweep over a portfolio whose only position is closed does nothing. -/
theorem monitor_closed_single (price_of : String → ℚ) (pf : Portfolio)
    (q : Position) (hpos : pf.positions = [q]) (hq : q.status = "closed") :
    monitor_positions price_of pf = (pf, 0) := by
  unfold monitor_positions
  rw [hpos, openIndices_single_closed q hq]
  rfl

theorem monitor_cycles_closed_single (ps : List ℚ) (pf : Portfolio)
    (q : Position) (hpos : pf.positions = [q]) (hq : q.status = "closed") :
    monitor_cycles ps pf = (pf, 0) := by
  induction ps with
  | nil => rfl
  | cons pr rest ih =>
    unfold monitor_cycles
    rw [monitor_closed_single (fun _ => pr) pf q hpos hq]
    simp [ih]

/-- A sweep over one open position whose exit condition does not fire
refreshes the PnL and submits nothing. -/
theorem monitor_open_single_no_exit (price_of : String → ℚ)
    (pf : Portfolio) (p : Position) (hpos : pf.positions = [p])
    (hp : p.status = "open")
    (hex : exitTriggered (p.update_pnl (price_of p.symbol))
      (price_of p.symbol) = false) :
    monitor_positions price_of pf
      = ({ pf with positions := [p.update_pnl (price_of p.symbol)] }, 0) := by
  unfold monitor_positions
  rw [hpos, openIndices_single_open p hp]
  simp only [List.foldl_cons, List.foldl_nil, hpos]
  rw [show ([p].get? 0) = some p from rfl]
  simp only [List.set]
  rw [hex]
  rfl

/-- A sweep over one open position whose exit condition fires closes it
through `close_position` and counts exactly one closing submission. -/
theorem monitor_open_single_exit (price_of : String → ℚ)
    (pf : Portfolio) (p : Position) (hpos : pf.positions = [p])
    (hp : p.status = "open")
    (hex : exitTriggered (p.update_pnl (price_of p.symbol))
      (price_of p.symbol) = true) :
    (monitor_positions price_of pf).2 = 1 ∧
    (monitor_positions price_of pf).1.positions
      = [(p.update_pnl (price_of p.symbol)).close_position
          (price_of p.symbol)] := by
  unfold monitor_positions
  rw [hpos, openIndices_single_open p hp]
  simp only [List.foldl_cons, List.foldl_nil, hpos]
  rw [show ([p].get? 0) = some p from rfl]
  simp only [List.set]
  rw [hex]
  set p1 := p.update_pnl (price_of p.symbol) with hp1
  have hsym : p1.symbol = p.symbol := by rw [hp1]; simp
  have hopen1 : p1.status = "open" := by rw [hp1]; simp [hp]
  have hclose : closeFirstOpen [p1] p.symbol (price_of p.symbol)
      = ([p1.close_position (price_of p.symbol)],
         some (p1.close_position (price_of p.symbol))) := by
    unfold closeFirstOpen
    rw [if_pos ⟨hsym, hopen1⟩]
  constructor
  · simp [Portfolio.close_position, hsym, hclose]
  · simp [Portfolio.close_position, hsym, hclose]

/-- C7: an open buy position with `stop_loss = 100` observing prices
101, 99, 99, 99 in successive monitor cycles causes exactly one closing
order submission: the first cycle observing the trigger submits the
close, and later cycles see the position already closed. -/
theorem claim_C7_single_exit (p : Position) (ib cb : ℚ)
    (th : List Position) (hopen : p.status = "open")
    (hside : p.side = "buy") (hsl : p.stop_loss = some 100) :
    (monitor_cycles [101, 99, 99, 99]
      { initial_balance := ib, current_balance := cb,
        positions := [p], trade_history := th }).2 = 1 := by
  set pf0 : Portfolio := { initial_balance := ib, current_balance := cb, positions := [p], trade_history := th } with hpf0
  have hpos0 : pf0.positions = [p] := rfl
  by_cases hex1 : exitTriggered (p.update_pnl 101) 101 = true
  · -- the first cycle already fires (a near take-profit level)
    obtain ⟨hn1, hps1⟩ := monitor_open_single_exit (fun _ => 101) pf0 p
      hpos0 hopen hex1
    unfold monitor_cycles
    dsimp only
    rw [monitor_cycles_closed_single [99, 99, 99]
      (monitor_positions (fun _ => 101) pf0).1 _ hps1 (by simp), hn1]
    simp
  · -- no trigger at 101; the stop fires at the first 99
    have hex1' : exitTriggered (p.update_pnl 101) 101 = false :=
      Bool.eq_false_iff.mpr hex1
    have h1 := monitor_open_single_no_exit (fun _ => 101) pf0 p hpos0
      hopen hex1'
    set p1 := p.update_pnl 101 with hp1def
    have hp1open : p1.status = "open" := by rw [hp1def]; simp [hopen]
    have hex2 : exitTriggered (p1.update_pnl 99) 99 = true := by
      unfold exitTriggered
      rw [if_pos (by rw [hp1def]; simp [hside])]
      rw [show (p1.update_pnl 99).stop_loss = some 100 from by
        rw [hp1def]; simp [hsl]]
      rw [show truthyLevel (some 100) = some 100 from by
        simp [truthyLevel]]
      norm_num
    obtain ⟨hn2, hps2⟩ := monitor_open_single_exit (fun _ => 99)
      { pf0 with positions := [p1] } p1 rfl hp1open hex2
    unfold monitor_cycles
    rw [h1]
    dsimp only
    unfold monitor_cycles
    dsimp only
    rw [monitor_cycles_closed_single [99, 99]
      (monitor_positions (fun _ => 99) { pf0 with positions := [p1] }).1 _
      hps2 (by simp), hn2]
    simp

theorem claim_C7_single_exit_witness :
    exPosition.status = "open" ∧ exPosition.side = "buy" ∧
    exPosition.stop_loss = some 100 ∧
    (monitor_cycles [101, 99, 99, 99]
      { initial_balance := 10000, current_balance := 10000,
        positions := [exPosition], trade_history := [] }).2 = 1 :=
  ⟨rfl, rfl, rfl,
   claim_C7_single_exit exPosition 10000 10000 [] rfl rfl rfl⟩

theorem cancel_order_zero (tbl : OrderTable) (oid : String) :
    cancel_order 0 tbl oid = (tbl, false) := by
  simp [cancel_order]

theorem cancel_order_succ (fuel : Nat) (tbl : OrderTable) (oid : String) :
    cancel_order (fuel + 1) tbl oid
      = match alookup tbl oid with
        | none => (tbl, false)
        | some o =>
          if can_cancel o.status then
            (cancel_children fuel (setOrderStatus tbl oid .CANCELLED)
              o.child_orders, true)
          else (tbl, false) := by
  rw [cancel_order]

theorem cancel_children_nil (fuel : Nat) (tbl : OrderTable) :
    cancel_children fuel tbl [] = tbl := by
  rw [cancel_children]

theorem cancel_children_cons (fuel : Nat) (tbl : OrderTable)
    (c : String) (rest : List String) :
    cancel_children fuel tbl (c :: rest)
      = cancel_children fuel (cancel_order fuel tbl c).1 rest := by
  rw [cancel_children]

theorem cancelsTo_refl (o : Order) : cancelsTo o o := Or.inl rfl

theorem cancelsTo_trans {a b c : Order} (h1 : cancelsTo a b)
    (h2 : cancelsTo b c) : cancelsTo a c := by
  rcases h1 with rfl | rfl
  · exact h2
  · rcases h2 with rfl | rfl
    · exact Or.inr rfl
    · exact Or.inr rfl

theorem cancelsTo_status_cancelled {o o' : Order} (h : cancelsTo o o')
    (hc : o.status = .CANCELLED) : o'.status = .CANCELLED := by
  rcases h with rfl | rfl
  · exact hc
  · rfl

theorem onlyCancels_refl (tbl : OrderTable) : onlyCancels tbl tbl := by
  unfold onlyCancels
  induction tbl with
  | nil => exact List.Forall₂.nil
  | cons p rest ih => exact List.Forall₂.cons ⟨rfl, cancelsTo_refl p.2⟩ ih

theorem onlyCancels_trans {t1 t2 t3 : OrderTable}
    (h12 : onlyCancels t1 t2) (h23 : onlyCancels t2 t3) :
    onlyCancels t1 t3 := by
  unfold onlyCancels at *
  induction h12 generalizing t3 with
  | nil =>
    cases h23
    exact List.Forall₂.nil
  | cons hpq htail ih =>
    cases h23 with
    | cons hqr htail2 =>
      exact List.Forall₂.cons
        ⟨hqr.1.trans hpq.1, cancelsTo_trans hpq.2 hqr.2⟩ (ih htail2)

theorem onlyCancels_alookup_some {t1 t2 : OrderTable}
    (h : onlyCancels t1 t2) (key : String) {o : Order}
    (ho : alookup t1 key = some o) :
    ∃ o', alookup t2 key = some o' ∧ cancelsTo o o' := by
  unfold onlyCancels at h
  induction h with
  | nil => simp [alookup] at ho
  | @cons a b l1 l2 hab htail ih =>
    by_cases hk : a.1 = key
    · have hbo : b.1 = key := hab.1.trans hk
      simp only [alookup, if_pos hk] at ho
      injection ho with ho
      refine ⟨b.2, ?_, ho ▸ hab.2⟩
      simp [alookup, if_pos hbo]
    · have hbo : ¬ b.1 = key := fun hcon => hk (hab.1 ▸ hcon)
      simp only [alookup, if_neg hk] at ho
      obtain ⟨o', h1, h2⟩ := ih ho
      refine ⟨o', ?_, h2⟩
      simp [alookup, if_neg hbo, h1]

theorem status_cancelled_stable {t1 t2 : OrderTable}
    (h : onlyCancels t1 t2) {key : String} {o : Order}
    (ho : alookup t1 key = some o) (hs : o.status = .CANCELLED) :
    ∃ o', alookup t2 key = some o' ∧ o'.status = .CANCELLED := by
  obtain ⟨o', h1, h2⟩ := onlyCancels_alookup_some h key ho
  exact ⟨o', h1, cancelsTo_status_cancelled h2 hs⟩

theorem cancellableCount_le_of_onlyCancels {t1 t2 : OrderTable}
    (h : onlyCancels t1 t2) :
    cancellableCount t2 ≤ cancellableCount t1 := by
  unfold onlyCancels at h
  unfold cancellableCount
  induction h with
  | nil => exact Nat.le_refl 0
  | @cons a b l1 l2 hab htail ih =>
    simp only [List.filter_cons]
    rcases hab.2 with heq | heq
    · rw [heq]
      by_cases hc : can_cancel a.2.status <;> simp [hc] <;> omega
    · rw [heq]
      have hfalse : can_cancel
          ({ a.2 with status := OrderStatus.CANCELLED }).status = false := rfl
      rw [hfalse]
      by_cases hc : can_cancel a.2.status <;> simp [hc] <;> omega

theorem onlyCancels_setStatus (tbl : OrderTable) (oid : String) :
    onlyCancels tbl (setOrderStatus tbl oid .CANCELLED) := by
  unfold onlyCancels setOrderStatus updateOrder
  induction tbl with
  | nil => exact List.Forall₂.nil
  | cons p rest ih =>
    simp only [List.map_cons]
    refine List.Forall₂.cons ?_ ih
    by_cases h : p.1 = oid
    · rw [if_pos h]
      exact ⟨rfl, Or.inr rfl⟩
    · rw [if_neg h]
      exact ⟨rfl, Or.inl rfl⟩

theorem alookup_setStatus_self {tbl : OrderTable} {oid : String}
    {o : Order} (ho : alookup tbl oid = some o) (s : OrderStatus) :
    alookup (setOrderStatus tbl oid s) oid = some { o with status := s } := by
  induction tbl with
  | nil => simp [alookup] at ho
  | cons p rest ih =>
    unfold setOrderStatus updateOrder at *
    simp only [List.map_cons]
    by_cases h : p.1 = oid
    · simp only [alookup, if_pos h] at ho
      injection ho with ho
      rw [if_pos h]
      simp only [alookup, if_pos h, ho]
    · simp only [alookup, if_neg h] at ho
      rw [if_neg h]
      simp only [alookup, if_neg h]
      exact ih ho

theorem alookup_setStatus_other {tbl : OrderTable} {oid key : String}
    (h : key ≠ oid) (s : OrderStatus) :
    alookup (setOrderStatus tbl oid s) key = alookup tbl key := by
  induction tbl with
  | nil => rfl
  | cons p rest ih =>
    unfold setOrderStatus updateOrder at *
    simp only [List.map_cons]
    by_cases hp : p.1 = oid
    · have hpk : ¬ p.1 = key := fun hcon => h (hcon ▸ hp)
      rw [if_pos hp]
      simp only [alookup, if_neg hpk]
      exact ih
    · rw [if_neg hp]
      by_cases hpk : p.1 = key
      · simp [alookup, if_pos hpk]
      · simp only [alookup, if_neg hpk]
        exact ih

theorem cancellableCount_setStatus_le (tbl : OrderTable) (oid : String) :
    cancellableCount (setOrderStatus tbl oid .CANCELLED)
      ≤ cancellableCount tbl :=
  cancellableCount_le_of_onlyCancels (onlyCancels_setStatus tbl oid)

theorem cancellableCount_setStatus_lt {tbl : OrderTable} {oid : String}
    {o : Order} (ho : alookup tbl oid = some o)
    (hc : can_cancel o.status = true) :
    cancellableCount (setOrderStatus tbl oid .CANCELLED)
      < cancellableCount tbl := by
  induction tbl with
  | nil => simp [alookup] at ho
  | cons p rest ih =>
    by_cases h : p.1 = oid
    · have hpo : p.2 = o := by
        simpa [alookup, if_pos h] using ho
      have hrest := cancellableCount_setStatus_le rest oid
      have hsplit : cancellableCount (setOrderStatus (p :: rest) oid
            .CANCELLED)
          = cancellableCount (setOrderStatus rest oid .CANCELLED) := by
        simp [cancellableCount, setOrderStatus, updateOrder,
          List.filter_cons, h, can_cancel]
      have hcons : cancellableCount (p :: rest)
          = cancellableCount rest + 1 := by
        simp [cancellableCount, List.filter_cons, hpo ▸ hc]
      omega
    · have ho' : alookup rest oid = some o := by
        simpa [alookup, if_neg h] using ho
      have hstep := ih ho'
      by_cases hcc : can_cancel p.2.status = true
      · have hsplit : cancellableCount (setOrderStatus (p :: rest) oid
              .CANCELLED)
            = cancellableCount (setOrderStatus rest oid .CANCELLED) + 1 := by
          simp [cancellableCount, setOrderStatus, updateOrder,
            List.filter_cons, h, hcc]
        have hcons : cancellableCount (p :: rest)
            = cancellableCount rest + 1 := by
          simp [cancellableCount, List.filter_cons, hcc]
        omega
      · have hsplit : cancellableCount (setOrderStatus (p :: rest) oid
              .CANCELLED)
            = cancellableCount (setOrderStatus rest oid .CANCELLED) := by
          simp [cancellableCount, setOrderStatus, updateOrder,
            List.filter_cons, h, hcc]
        have hcons : cancellableCount (p :: rest)
            = cancellableCount rest := by
          simp [cancellableCount, List.filter_cons, hcc]
        omega

theorem onlyCancels_cancel_children_of (fuel : Nat)
    (horder : ∀ tbl oid, onlyCancels tbl (cancel_order fuel tbl oid).1) :
    ∀ (ids : List String) (tbl : OrderTable),
      onlyCancels tbl (cancel_children fuel tbl ids) := by
  intro ids
  induction ids with
  | nil =>
    intro tbl
    rw [cancel_children_nil]
    exact onlyCancels_refl tbl
  | cons c rest ih =>
    intro tbl
    rw [cancel_children_cons]
    exact onlyCancels_trans (horder tbl c) (ih _)

theorem onlyCancels_cancel (fuel : Nat) :
    (∀ tbl oid, onlyCancels tbl (cancel_order fuel tbl oid).1) ∧
    (∀ tbl ids, onlyCancels tbl (cancel_children fuel tbl ids)) := by
  induction fuel with
  | zero =>
    have horder : ∀ tbl oid,
        onlyCancels tbl (cancel_order 0 tbl oid).1 := by
      intro tbl oid
      rw [cancel_order_zero]
      exact onlyCancels_refl tbl
    exact ⟨horder, fun tbl ids =>
      onlyCancels_cancel_children_of 0 horder ids tbl⟩
  | succ fuel ih =>
    have horder : ∀ tbl oid,
        onlyCancels tbl (cancel_order (fuel + 1) tbl oid).1 := by
      intro tbl oid
      rw [cancel_order_succ]
      cases hlk : alookup tbl oid with
      | none => exact onlyCancels_refl tbl
      | some o =>
        by_cases hc : can_cancel o.status = true
        · simp only [if_pos hc]
          exact onlyCancels_trans (onlyCancels_setStatus tbl oid)
            (ih.2 _ o.child_orders)
        · simp only [if_neg hc]
          exact onlyCancels_refl tbl
    exact ⟨horder, fun tbl ids =>
      onlyCancels_cancel_children_of (fuel + 1) horder ids tbl⟩

theorem onlyCancels_cancel_order (fuel : Nat) (tbl : OrderTable)
    (oid : String) : onlyCancels tbl (cancel_order fuel tbl oid).1 :=
  (onlyCancels_cancel fuel).1 tbl oid

theorem onlyCancels_cancel_children (fuel : Nat) (tbl : OrderTable)
    (ids : List String) : onlyCancels tbl (cancel_children fuel tbl ids) :=
  (onlyCancels_cancel fuel).2 tbl ids

/-- Any id on the worklist that is cancellable (or already cancelled)
when the children pass reaches it ends up CANCELLED. -/
theorem cancel_children_hits (fuel : Nat) (hfuel : 1 ≤ fuel) :
    ∀ (ids : List String) (tbl : OrderTable) (x : String) (o : Order),
      x ∈ ids → alookup tbl x = some o →
      (can_cancel o.status = true ∨ o.status = .CANCELLED) →
      ∃ o', alookup (cancel_children fuel tbl ids) x = some o' ∧
        o'.status = .CANCELLED := by
  intro ids
  induction ids with
  | nil =>
    intro tbl x o hx
    exact absurd hx (List.not_mem_nil x)
  | cons c rest ih =>
    intro tbl x o hx ho hst
    rw [cancel_children_cons]
    by_cases hxc : x = c
    · subst hxc
      have hmid : ∃ o1, alookup (cancel_order fuel tbl x).1 x = some o1 ∧
          o1.status = .CANCELLED := by
        obtain ⟨f, rfl⟩ : ∃ f, fuel = f + 1 := ⟨fuel - 1, by omega⟩
        rw [cancel_order_succ, ho]
        dsimp only
        rcases hst with hc | hcC
        · rw [if_pos hc]
          have h1 : alookup (setOrderStatus tbl x .CANCELLED) x
              = some { o with status := .CANCELLED } :=
            alookup_setStatus_self ho _
          exact status_cancelled_stable
            (onlyCancels_cancel_children f _ o.child_orders) h1 rfl
        · rw [if_neg (by rw [hcC]; simp [can_cancel])]
          exact ⟨o, ho, hcC⟩
      obtain ⟨o1, h1, h2⟩ := hmid
      exact status_cancelled_stable
        (onlyCancels_cancel_children fuel _ rest) h1 h2
    · have hmem : x ∈ rest := by
        rcases List.mem_cons.mp hx with h | h
        · exact absurd h hxc
        · exact h
      obtain ⟨o2, h1, h2⟩ := onlyCancels_alookup_some
        (onlyCancels_cancel_order fuel tbl c) x ho
      have hst2 : can_cancel o2.status = true ∨ o2.status = .CANCELLED := by
        rcases h2 with rfl | rfl
        · exact hst
        · exact Or.inr rfl
      exact ih _ x o2 hmem h1 hst2

/-- C1 (counterexample): the claim as stated requires every recorded
child to end CANCELLED, but a child that already FILLED before the
cascade stays FILLED: cancelling the parent still returns success and
cancels the parent and the remaining child. -/
theorem claim_C1_counterexample :
    (cancel_order 5 exTableFilledChild "p").2 = true ∧
    statusOf (cancel_order 5 exTableFilledChild "p").1 "p"
      = some .CANCELLED ∧
    statusOf (cancel_order 5 exTableFilledChild "p").1 "sl"
      = some .FILLED ∧
    statusOf (cancel_order 5 exTableFilledChild "p").1 "tp"
      = some .CANCELLED := by
  refine ⟨?_, ?_, ?_, ?_⟩ <;>
    simp [cancel_order, cancel_children, alookup, setOrderStatus,
      updateOrder, statusOf, exTableFilledChild, exOrder, can_cancel]

/-- C1 (amended): for every tracked order in a cancellable status
{PENDING, SUBMITTED, PARTIALLY_FILLED} on which stop-loss and
take-profit child order ids have been recorded, and whose recorded
children are themselves tracked in a cancellable status (or already
CANCELLED), `cancel(order_id)` returns a success result, transitions the
parent to CANCELLED and recursively cancels the recorded children, so
that afterwards the parent and both children are all CANCELLED.  (A
child already in another terminal state keeps it, see the
counterexample.)  `fuel` is the recursion-depth budget of the embedding;
any value beyond the cascade's actual depth works. -/
theorem claim_C1_cascade_cancellation (fuel : Nat) (tbl : OrderTable)
    (pid : String) (op : Order) (c1 c2 : String) (oc1 oc2 : Order)
    (hfuel : 2 ≤ fuel)
    (hp : alookup tbl pid = some op)
    (hcanc : can_cancel op.status = true)
    (_hsl : op.stop_loss_order_id = some c1)
    (_htp : op.take_profit_order_id = some c2)
    (hc1 : c1 ∈ op.child_orders) (hc2 : c2 ∈ op.child_orders)
    (hl1 : alookup tbl c1 = some oc1)
    (hl2 : alookup tbl c2 = some oc2)
    (hs1 : can_cancel oc1.status = true ∨ oc1.status = .CANCELLED)
    (hs2 : can_cancel oc2.status = true ∨ oc2.status = .CANCELLED) :
    (cancel_order fuel tbl pid).2 = true ∧
    statusOf (cancel_order fuel tbl pid).1 pid = some .CANCELLED ∧
    statusOf (cancel_order fuel tbl pid).1 c1 = some .CANCELLED ∧
    statusOf (cancel_order fuel tbl pid).1 c2 = some .CANCELLED := by
  obtain ⟨f, rfl⟩ : ∃ f, fuel = f + 1 := ⟨fuel - 1, by omega⟩
  have hf1 : 1 ≤ f := by omega
  rw [cancel_order_succ, hp]
  dsimp only
  rw [if_pos hcanc]
  have hp1 : alookup (setOrderStatus tbl pid .CANCELLED) pid
      = some { op with status := .CANCELLED } :=
    alookup_setStatus_self hp _
  have hchild : ∀ (c : String) (oc : Order), c ∈ op.child_orders →
      alookup tbl c = some oc →
      (can_cancel oc.status = true ∨ oc.status = .CANCELLED) →
      statusOf (cancel_children f (setOrderStatus tbl pid .CANCELLED)
        op.child_orders) c = some .CANCELLED := by
    intro c oc hmem hlc hsc
    have hlk : ∃ od, alookup (setOrderStatus tbl pid .CANCELLED) c
        = some od ∧ (can_cancel od.status = true ∨
          od.status = .CANCELLED) := by
      by_cases hcp : c = pid
      · subst hcp
        rw [hlc] at hp
        injection hp with hp
        exact ⟨_, hp1, Or.inr rfl⟩
      · rw [alookup_setStatus_other hcp]
        exact ⟨oc, hlc, hsc⟩
    obtain ⟨od, hod, hods⟩ := hlk
    obtain ⟨o', ho', ho's⟩ := cancel_children_hits f hf1
      op.child_orders _ c od hmem hod hods
    simp [statusOf, ho', ho's]
  refine ⟨rfl, ?_, hchild c1 oc1 hc1 hl1 hs1, hchild c2 oc2 hc2 hl2 hs2⟩
  obtain ⟨o', ho', ho's⟩ := status_cancelled_stable
    (onlyCancels_cancel_children f _ op.child_orders) hp1 rfl
  simp [statusOf, ho', ho's]

theorem claim_C1_cascade_cancellation_witness :
    (2 ≤ 3 ∧ can_cancel OrderStatus.SUBMITTED = true) ∧
    ((cancel_order 3 exTableOk "p").2 = true ∧
     statusOf (cancel_order 3 exTableOk "p").1 "p" = some .CANCELLED ∧
     statusOf (cancel_order 3 exTableOk "p").1 "sl" = some .CANCELLED ∧
     statusOf (cancel_order 3 exTableOk "p").1 "tp" = some .CANCELLED) :=
  ⟨⟨by omega, rfl⟩,
   claim_C1_cascade_cancellation 3 exTableOk "p"
     { exOrder "p" .SUBMITTED ["sl", "tp"] with
       stop_loss_order_id := some "sl",
       take_profit_order_id := some "tp" }
     "sl" "tp" (exOrder "sl" .SUBMITTED []) (exOrder "tp" .SUBMITTED [])
     (by omega) rfl rfl rfl rfl (by simp [exOrder]) (by simp [exOrder])
     rfl rfl (Or.inl rfl) (Or.inl rfl)⟩

/-- The fuel-indexed cascade is insensitive to the exact budget: one
more unit of fuel changes nothing once the budget exceeds the number of
cancellable orders in the table. -/
theorem cancel_fuel_step : ∀ (f : Nat) (tbl : OrderTable) (oid : String),
    cancellableCount tbl < f →
    cancel_order f tbl oid = cancel_order (f + 1) tbl oid := by
  intro f
  induction f with
  | zero =>
    intro tbl oid h
    exact absurd h (Nat.not_lt_zero _)
  | succ f ih =>
    intro tbl oid h
    have hch : ∀ (ids : List String) (tbl : OrderTable),
        cancellableCount tbl < f →
        cancel_children f tbl ids = cancel_children (f + 1) tbl ids := by
      intro ids
      induction ids with
      | nil =>
        intro tbl h2
        rw [cancel_children_nil, cancel_children_nil]
      | cons c rest ih2 =>
        intro tbl h2
        rw [cancel_children_cons, cancel_children_cons]
        rw [← ih tbl c h2]
        have hle : cancellableCount (cancel_order f tbl c).1
            ≤ cancellableCount tbl :=
          cancellableCount_le_of_onlyCancels
            (onlyCancels_cancel_order f tbl c)
        exact ih2 _ (by omega)
    rw [cancel_order_succ, cancel_order_succ]
    cases hlk : alookup tbl oid with
    | none => rfl
    | some o =>
      by_cases hc : can_cancel o.status = true
      · simp only [if_pos hc]
        have hlt : cancellableCount (setOrderStatus tbl oid .CANCELLED)
            < cancellableCount tbl :=
          cancellableCount_setStatus_lt hlk hc
        rw [hch o.child_orders _ (by omega)]
      · simp only [if_neg hc]

theorem cancel_fuel_mono (tbl : OrderTable) (oid : String) (f g : Nat)
    (hf : cancellableCount tbl < f) (hfg : f ≤ g) :
    cancel_order f tbl oid = cancel_order g tbl oid := by
  induction g, hfg using Nat.le_induction with
  | base => rfl
  | succ g hg ih => rw [ih, cancel_fuel_step g tbl oid (by omega)]

/-- C10: the cancellation cascade terminates on every finite order
table, even when the recorded `child_orders` contain duplicates or form
cycles through parent/child links: an order is set CANCELLED before its
children are visited, and revisiting a CANCELLED (or unknown) id returns
an error result without recursing, so the recursion depth is bounded by
the number of cancellable orders — any fuel budget beyond that bound
yields the identical result. -/
theorem claim_C10_cascade_termination (tbl : OrderTable) (oid : String)
    (f g : Nat) (hf : cancellableCount tbl < f)
    (hg : cancellableCount tbl < g) :
    cancel_order f tbl oid = cancel_order g tbl oid := by
  rcases Nat.le_total f g with h | h
  · exact cancel_fuel_mono tbl oid f g hf h
  · exact (cancel_fuel_mono tbl oid g f hg h).symm

theorem claim_C10_cascade_termination_witness :
    cancellableCount exTableCycle < 3 ∧ cancellableCount exTableCycle < 7 ∧
    cancel_order 3 exTableCycle "a" = cancel_order 7 exTableCycle "a" :=
  ⟨by decide, by decide,
   claim_C10_cascade_termination exTableCycle "a" 3 7
     (by decide) (by decide)⟩

end TradingBot
